import Mathlib

/-!
Verification development for the gofermart loyalty-points backend.

The definitions below are a shallow embedding of the Go source:
pure functions become Lean functions, the PostgreSQL tables become a
`DB` record of lists, a SQL transaction becomes an `Except Err DB`
value (an `.error` result means the transaction was rolled back, so
the caller keeps the unchanged database), and `decimal.Decimal`
monetary values become `Rat` (exact arithmetic, as in the source).
Timestamps are modelled as `Nat`; the `updated_at` columns, the user
`login` and `password_hash` columns and the opaque UUID ids (modelled
as `Nat`) carry no logic relevant to the claims.
-/

namespace Gofermart

/-! ## Luhn validator (src/unnamed/part_008, `utils.ValidateLuhn`) -/

/-- Loop body of `ValidateLuhn`: walks the characters left to right with
index `i`, accumulating the checksum; returns `none` as soon as a
non-digit character (code point outside '0'..'9') is met, mirroring the
Go `return false`.  A digit at index `i` with `i % 2 == parity` is
doubled, subtracting 9 when the product exceeds 9. -/
def luhnLoop (parity : Nat) : Nat → Nat → List Char → Option Nat
  | _, sum, [] => some sum
  | i, sum, c :: rest =>
    if c.toNat < 48 || 57 < c.toNat then none
    else
      let digit := c.toNat - 48
      let digit := if i % 2 == parity then (if digit * 2 > 9 then digit * 2 - 9 else digit * 2) else digit
      luhnLoop parity (i + 1) (sum + digit) rest

/-- Transcription of Go `utils.ValidateLuhn`: `parity := len(number) % 2`,
then the indexed loop; accepts iff the checksum is divisible by 10.
(For the strings on which the byte length and the rune count could
differ the loop meets a non-digit and returns `false` either way, so
using the character count for `parity` is faithful.) -/
def ValidateLuhn (number : String) : Bool :=
  match luhnLoop (number.toList.length % 2) 0 0 number.toList with
  | none => false
  | some sum => sum % 10 == 0

/-- Go digit test used by `ValidateLuhn`: the rune is in '0'..'9'. -/
def isGoDigit (c : Char) : Bool := !(c.toNat < 48 || 57 < c.toNat)

/-- Luhn doubling step: double a digit and subtract 9 when the product
exceeds 9. -/
def luhnDouble (d : Nat) : Nat := if d * 2 > 9 then d * 2 - 9 else d * 2

/-- Modelled from the spec words (reference definition for claim C6):
the Luhn checksum of a digit list given RIGHT to LEFT, `j` counting the
distance from the right end, "doubling every second digit from the
right (subtracting 9 if the product exceeds 9)": the digits at odd
distance from the right are doubled. -/
def luhnSpecSum : Nat → List Nat → Nat
  | _, [] => 0
  | j, d :: rest => (if j % 2 == 1 then luhnDouble d else d) + luhnSpecSum (j + 1) rest

/-- Numeric value of a digit character. -/
def digitVal (c : Char) : Nat := c.toNat - 48

/-- White-space predicate of Go `unicode.IsSpace` on the Latin-1 range
(the range relevant to order numbers): space, tab, newline, vertical
tab, form feed, carriage return, next line, no-break space. -/
def goIsSpace (c : Char) : Bool :=
  c == ' ' || c == '\t' || c == '\n' || c == '\x0b' || c == '\x0c' || c == '\r' ||
  c == '\x85' || c == '\xa0'

/-- Embedding of Go `strings.TrimSpace`: drop white space from both
ends (defined over the character list so that it evaluates inside the
kernel). -/
def trimSpace (s : String) : String :=
  String.mk (((s.toList.dropWhile goIsSpace).reverse.dropWhile goIsSpace).reverse)

/-! ## Data model (src/internal/models) -/

/-- Order status enumeration (`models.OrderStatus`). -/
inductive OrderStatus
  | new
  | processing
  | invalid
  | processed
deriving DecidableEq, Repr

/-- Persisted order row (`models.Order`): owner, business key `number`,
status, nullable accrual, upload timestamp. -/
structure Order where
  userID : Nat
  number : String
  status : OrderStatus
  accrual : Option Rat
  uploadedAt : Nat
deriving DecidableEq, Repr

/-- Persisted user row (`models.User`), restricted to the monetary
attributes the core mutates. -/
structure User where
  id : Nat
  balance : Rat
  withdrawn : Rat
deriving DecidableEq, Repr

/-- Persisted withdrawal row (`models.Withdrawal`). -/
structure Withdrawal where
  userID : Nat
  orderNumber : String
  sum : Rat
  processedAt : Nat
deriving DecidableEq, Repr

/-- The relational store: the three tables of the schema. -/
structure DB where
  users : List User
  orders : List Order
  withdrawals : List Withdrawal
deriving DecidableEq, Repr

/-- Error taxonomy of the source, one constructor per sentinel error
value (`errors.New` in the Go packages); `wrap ctx e` embeds
`fmt.Errorf(ctx + ": %w", e)` and `msg` embeds an `fmt.Errorf` without
a wrapped cause. -/
inductive Err
  | userNotFound
  | loginExists
  | insufficientBalance
  | orderNotFound
  | orderAlreadyExists
  | withdrawalExists
  | invalidOrderNumber
  | invalidWithdrawalNumber
  | invalidWithdrawalSum
  | orderAlreadyUploaded
  | orderOwnedByAnother
  | msg (s : String)
  | wrap (ctx : String) (e : Err)
deriving DecidableEq, Repr

/-- Embedding of Go `errors.Is`: compare with the target, unwrapping
`wrap` layers (the `%w` chain). -/
def errorsIs : Err → Err → Bool
  | .wrap c e, target => Err.wrap c e == target || errorsIs e target
  | e, target => e == target

/-! ## Order storage (src/internal/storage/order_storage.go) -/

/-- Row lookup used by `GetByNumber`: first order with the given
business key. -/
def findOrder (db : DB) (number : String) : Option Order :=
  db.orders.find? (fun o => o.number == number)

/-- Result pair of Go `GetByNumber` as seen by the service layer:
`(order, nil)` on a hit, `(nil, ErrOrderNotFound)` when no row
matches. -/
def getByNumberReply (db : DB) (number : String) : Option Order × Option Err :=
  match findOrder db number with
  | some o => (some o, none)
  | none => (none, some Err.orderNotFound)

/-- Effect of the `UpdateStatus` UPDATE: set status and accrual of every
row with the given number (the column list of the SQL statement; the
`updated_at` refresh is not modelled). -/
def setOrderStatus (db : DB) (number : String) (st : OrderStatus) (acc : Option Rat) : DB :=
  { db with orders := db.orders.map (fun o =>
      if o.number == number then { o with status := st, accrual := acc } else o) }

/-- Transcription of `PostgresOrderStorage.UpdateStatus`: run the
UPDATE, then report `ErrOrderNotFound` when zero rows were affected. -/
def UpdateStatus (db : DB) (number : String) (st : OrderStatus) (acc : Option Rat) : Except Err DB :=
  if db.orders.any (fun o => o.number == number) then
    .ok (setOrderStatus db number st acc)
  else
    .error Err.orderNotFound

/-- Pending-row predicate of `GetPendingOrders`:
`status IN ('NEW', 'PROCESSING')`. -/
def isPending (o : Order) : Bool :=
  o.status == OrderStatus.new || o.status == OrderStatus.processing

/-- Row order used by `ORDER BY uploaded_at ASC`. -/
def uploadedLE (a b : Order) : Prop := a.uploadedAt ≤ b.uploadedAt

instance : DecidableRel uploadedLE := fun a b => Nat.decLe a.uploadedAt b.uploadedAt

instance : IsTotal Order uploadedLE := ⟨fun a b => Nat.le_total a.uploadedAt b.uploadedAt⟩

instance : IsTrans Order uploadedLE := ⟨fun _ _ _ h1 h2 => Nat.le_trans h1 h2⟩

/-- Transcription of `PostgresOrderStorage.GetPendingOrders`: the rows
with status NEW or PROCESSING, sorted by `uploaded_at` ascending. -/
def GetPendingOrders (db : DB) : List Order :=
  List.insertionSort uploadedLE (db.orders.filter isPending)

/-! ## User storage (src/internal/storage/user_storage.go) -/

/-- Row lookup by primary key. -/
def findUser (db : DB) (id : Nat) : Option User :=
  db.users.find? (fun u => u.id == id)

/-- Transcription of `PostgresUserStorage.WithdrawTx`: read the balance
of the locked user row (`ErrUserNotFound` when absent), fail with
`ErrInsufficientBalance` when `balance < amount`, otherwise apply
`balance -= amount; withdrawn += amount` to the row.  An `.error`
result leaves the caller's database untouched (the enclosing
transaction rolls back). -/
def WithdrawTx (db : DB) (id : Nat) (amount : Rat) : Except Err DB :=
  match findUser db id with
  | none => .error Err.userNotFound
  | some u =>
    if u.balance < amount then .error Err.insufficientBalance
    else .ok { db with users := db.users.map (fun v =>
        if v.id == id then { v with balance := v.balance - amount, withdrawn := v.withdrawn + amount } else v) }

/-- Effect of the worker's balance-credit UPDATE
(`balance = balance + $1 WHERE id = $2`). -/
def creditUser (db : DB) (id : Nat) (amount : Rat) : DB :=
  { db with users := db.users.map (fun u =>
      if u.id == id then { u with balance := u.balance + amount } else u) }

/-! ## Withdrawal storage (src/internal/storage/withdrawal_storage.go) -/

/-- Transcription of `PostgresWithdrawalStorage.CreateWithTx`: the
INSERT fails with `ErrWithdrawalExists` on the `order_number`
uniqueness violation, otherwise appends the row. -/
def CreateWithTx (db : DB) (w : Withdrawal) : Except Err DB :=
  if db.withdrawals.any (fun v => v.orderNumber == w.orderNumber) then
    .error Err.withdrawalExists
  else
    .ok { db with withdrawals := db.withdrawals ++ [w] }

/-! ## Balance service (src/internal/services/balance_service.go) -/

/-- Transcription of `BalanceServiceImpl.Withdraw`: trim the order
number, reject empty or non-Luhn input with
`ErrInvalidWithdrawalNumber`, reject `sum <= 0` with
`ErrInvalidWithdrawalSum`, then inside one transaction debit the
balance (`WithdrawTx`) and insert the withdrawal (`CreateWithTx`);
each storage error is returned unchanged, and the `.error` result
means the transaction rolled back. -/
def Withdraw (db : DB) (userID : Nat) (orderNumber : String) (sum : Rat) (now : Nat) : Except Err DB :=
  let n := trimSpace orderNumber
  if n == "" || !(ValidateLuhn n) then .error Err.invalidWithdrawalNumber
  else if sum ≤ 0 then .error Err.invalidWithdrawalSum
  else
    match WithdrawTx db userID sum with
    | .error e => .error e
    | .ok db1 =>
      match CreateWithTx db1 { userID := userID, orderNumber := n, sum := sum, processedAt := now } with
      | .error e => .error e
      | .ok db2 => .ok db2

/-- Post-state visible to the caller of `Withdraw`: the new database on
commit, the unchanged one (rollback) together with the error
otherwise. -/
def withdrawRun (db : DB) (userID : Nat) (orderNumber : String) (sum : Rat) (now : Nat) : DB × Option Err :=
  match Withdraw db userID orderNumber sum now with
  | .ok db2 => (db2, none)
  | .error e => (db, some e)

/-! ## Order service (src/internal/services/order_service.go) -/

/-- Storage replies consumed by one run of `SubmitOrder`: the result of
the first `GetByNumber`, of `Create`, and of the re-fetch performed on
a lost creation race.  Abstracting the storage interface this way lets
the adversarial schedules of the race branch be stated (in the
sequential database model the race branch is unreachable). -/
structure SubmitCalls where
  get1 : Option Order × Option Err
  createErr : Option Err
  get2 : Option Order × Option Err

/-- Transcription of the control flow of `OrderServiceImpl.SubmitOrder`
over the storage replies: trim, reject empty or non-Luhn input; when
the first fetch yields an order map ownership to
`ErrOrderAlreadyUploaded` / `ErrOrderOwnedByAnotherUser`; a fetch
error other than `ErrOrderNotFound` is wrapped as
"check existing order"; then `Create`; on `ErrOrderAlreadyExists` the
re-fetch is mapped to the same per-owner outcomes, any other outcome
of the race branch and any other creation error is wrapped as
"create order".  `none` means the order was created. -/
def submitOrderWith (userID : Nat) (orderNumber : String) (c : SubmitCalls) : Option Err :=
  let n := trimSpace orderNumber
  if n == "" then some Err.invalidOrderNumber
  else if !(ValidateLuhn n) then some Err.invalidOrderNumber
  else
    let afterCreate : Option Err :=
      match c.createErr with
      | none => none
      | some ce =>
        if errorsIs ce Err.orderAlreadyExists then
          match c.get2 with
          | (some ex, none) =>
            if ex.userID == userID then some Err.orderAlreadyUploaded
            else some Err.orderOwnedByAnother
          | _ => some (Err.wrap "create order" ce)
        else some (Err.wrap "create order" ce)
    match c.get1 with
    | (some ex, none) =>
      if ex.userID == userID then some Err.orderAlreadyUploaded
      else some Err.orderOwnedByAnother
    | (_, some e) =>
      if errorsIs e Err.orderNotFound then afterCreate
      else some (Err.wrap "check existing order" e)
    | (none, none) => afterCreate

/-- The service running against the sequential store: the fetches read
the database, `Create` fails with `ErrOrderAlreadyExists` exactly on a
`number` uniqueness violation, and a successful creation appends the
order with status NEW. -/
def SubmitOrder (db : DB) (userID : Nat) (orderNumber : String) (now : Nat) : Except Err DB :=
  let n := trimSpace orderNumber
  let calls : SubmitCalls :=
    { get1 := getByNumberReply db n
      createErr := if db.orders.any (fun o => o.number == n) then some Err.orderAlreadyExists else none
      get2 := getByNumberReply db n }
  match submitOrderWith userID orderNumber calls with
  | some e => .error e
  | none => .ok { db with orders := db.orders ++
      [{ userID := userID, number := n, status := OrderStatus.new, accrual := none, uploadedAt := now }] }

/-! ## Accrual client (src/cmd/gophermart/main.go, package accrual) -/

/-- Transient reply of the accrual service (`accrual.AccrualResponse`);
`accrual` is a non-nullable decimal, so a body that omits the field
decodes to `0`. -/
structure AccrualResponse where
  order : String
  status : String
  accrual : Rat
deriving DecidableEq, Repr

/-- Error kinds produced by `HTTPAccrualClient.GetOrderAccrual`, one
constructor per construction site in the source: the `ErrNotFound`
sentinel, the `RateLimitError` struct (duration in nanoseconds), the
wrapped JSON decode failure, and the two `fmt.Errorf` families for
status 500 and for any other status. -/
inductive AccrualErr
  | notFound
  | rateLimited (retryAfter : Int)
  | decodeErr (m : String)
  | serverError
  | unexpectedStatus (code : Nat)
deriving DecidableEq, Repr

/-- One nanosecond-denominated second (`time.Second`). -/
def second : Int := 1000000000

/-- Embedding of `strconv.Atoi`: optional sign followed by at least one
digit, rejecting any other character and the 64-bit out-of-range
values. -/
def goAtoi (s : String) : Option Int :=
  let (sign, ds) : Int × List Char :=
    match s.toList with
    | '+' :: rest => (1, rest)
    | '-' :: rest => (-1, rest)
    | l => (1, l)
  if ds.isEmpty then none
  else if ds.all isGoDigit then
    let v : Int := sign * Int.ofNat (ds.foldl (fun acc c => acc * 10 + digitVal c) 0)
    if -(2 ^ 63) ≤ v ∧ v < 2 ^ 63 then some v else none
  else none

/-- Transcription of `parseRetryAfter`: empty header value defaults to
5 s; an `Atoi`-parsable value counts seconds; otherwise an HTTP-date is
tried and `time.Until` applied; anything else defaults to 5 s.
`dateParse` supplies the result of the stdlib `http.ParseTime` (the
instant as nanoseconds when the value parses as an HTTP-date) and
`now` the current instant. -/
def parseRetryAfter (val : String) (dateParse : Option Int) (now : Int) : Int :=
  if val == "" then 5 * second
  else
    match goAtoi val with
    | some secs => secs * second
    | none =>
      match dateParse with
      | some t => t - now
      | none => 5 * second

/-- The HTTP response of the accrual service as the client observes it:
status code, outcome of decoding the body (consulted only for 200),
and the `Retry-After` header (`""` when absent, matching
`Header.Get`). -/
structure HTTPResponse where
  statusCode : Nat
  bodyDecode : Except String AccrualResponse
  retryAfter : String
  retryAfterDate : Option Int
deriving Repr

/-- Transcription of the response classification switch of
`HTTPAccrualClient.GetOrderAccrual`: 200 decodes the body, 204 is the
`ErrNotFound` sentinel, 429 carries the parsed `Retry-After`, 500 and
every other status are the two `fmt.Errorf` families. -/
def GetOrderAccrual (resp : HTTPResponse) (now : Int) : Except AccrualErr AccrualResponse :=
  if resp.statusCode == 200 then
    match resp.bodyDecode with
    | .ok payload => .ok payload
    | .error m => .error (AccrualErr.decodeErr m)
  else if resp.statusCode == 204 then .error AccrualErr.notFound
  else if resp.statusCode == 429 then
    .error (AccrualErr.rateLimited (parseRetryAfter resp.retryAfter resp.retryAfterDate now))
  else if resp.statusCode == 500 then .error AccrualErr.serverError
  else .error (AccrualErr.unexpectedStatus resp.statusCode)

/-- JSON body of a 200 reply with each field optional; Go
`encoding/json` leaves the zero value for a missing field: `""` for
the strings and the zero decimal for `accrual`. -/
structure AccrualJSON where
  order : Option String
  status : Option String
  accrual : Option Rat
deriving DecidableEq, Repr

/-- Decoding a well-formed body into `AccrualResponse`: absent fields
keep the zero values. -/
def decodeAccrualBody (j : AccrualJSON) : AccrualResponse :=
  { order := j.order.getD ""
    status := j.status.getD ""
    accrual := j.accrual.getD 0 }

/-! ## Accrual worker (src/internal/models/withdrawal.go, `AccrualWorker`) -/

/-- Outcome of one `client.GetOrderAccrual` call as the worker branches
on it: a reply, the `RateLimitError` (duration in nanoseconds), the
`ErrNotFound` sentinel, or any other error. -/
inductive FetchResult
  | reply (r : AccrualResponse)
  | rateLimited (d : Int)
  | notFound
  | fetchErr (m : String)
deriving Repr

/-- Observable side effects of the worker other than the database: a
full `time.Sleep` of the given duration, and the balance-credit UPDATE
of the apply-processed transaction. -/
inductive WEvent
  | slept (d : Int)
  | credited (number : String) (userID : Nat) (amount : Rat)
deriving DecidableEq, Repr

/-- Transcription of `AccrualWorker.applyProcessed`: one transaction
that sets the order row to PROCESSED with the given accrual and adds
the accrual to the owner's balance. -/
def applyProcessed (db : DB) (userID : Nat) (number : String) (amount : Rat) : DB :=
  creditUser (setOrderStatus db number OrderStatus.processed (some amount)) userID amount

/-- Transcription of `AccrualWorker.processOrder`.  `cancelled` models
whether the context passed to the worker is already cancelled; the
batch code never consults it: on `RateLimitError` the worker runs a
plain `time.Sleep` for the full duration (`time.Sleep` takes no
context) and reports no error; `ErrNotFound` is skipped; any other
fetch error is returned (the batch logs it); a reply dispatches on the
external status: REGISTERED and PROCESSING update to PROCESSING,
INVALID to INVALID, PROCESSED runs the apply-processed transaction,
and any other status is ignored. -/
def processOrder (cancelled : Bool) (db : DB) (o : Order) (fr : FetchResult) : DB × List WEvent × Option Err :=
  match fr with
  | .rateLimited d => (db, [WEvent.slept d], none)
  | .notFound => (db, [], none)
  | .fetchErr m => (db, [], some (Err.msg m))
  | .reply r =>
    match r.status with
    | "REGISTERED" =>
      match UpdateStatus db o.number OrderStatus.processing none with
      | .ok db1 => (db1, [], none)
      | .error e => (db, [], some e)
    | "PROCESSING" =>
      match UpdateStatus db o.number OrderStatus.processing none with
      | .ok db1 => (db1, [], none)
      | .error e => (db, [], some e)
    | "INVALID" =>
      match UpdateStatus db o.number OrderStatus.invalid none with
      | .ok db1 => (db1, [], none)
      | .error e => (db, [], some e)
    | "PROCESSED" =>
      (applyProcessed db o.userID o.number r.accrual, [WEvent.credited o.number o.userID r.accrual], none)
    | _ => (db, [], none)

/-- Loop body of `AccrualWorker.processBatch` over an already-fetched
batch: each order is handled independently, a per-order error is only
logged and never aborts the iteration.  The oracle `f` supplies the
accrual client's answer for each order number. -/
def processBatchList (cancelled : Bool) (db : DB) (os : List Order) (f : String → FetchResult) : DB × List WEvent :=
  match os with
  | [] => (db, [])
  | o :: rest =>
    let step := processOrder cancelled db o (f o.number)
    let rec1 := processBatchList cancelled step.1 rest f
    (rec1.1, step.2.1 ++ rec1.2)

/-- Transcription of `AccrualWorker.processBatch`: snapshot the pending
orders once, then iterate them in upload order. -/
def processBatch (cancelled : Bool) (db : DB) (f : String → FetchResult) : DB × List WEvent :=
  processBatchList cancelled db (GetPendingOrders db) f

/-- The worker loop over a sequence of ticks, one reply oracle per
tick. -/
def runTicks (cancelled : Bool) (db : DB) : List (String → FetchResult) → DB × List WEvent
  | [] => (db, [])
  | f :: fs =>
    let t := processBatch cancelled db f
    let rest := runTicks cancelled t.1 fs
    (rest.1, t.2 ++ rest.2)

/-- Number of balance credits the worker performed for the given order
number. -/
def creditsFor (n : String) (evs : List WEvent) : Nat :=
  evs.countP (fun e =>
    match e with
    | WEvent.credited m _ _ => m == n
    | _ => false)

/-! ## HTTP handlers (src/internal/handlers) -/

/-- Status mapping of `OrderHandler.SubmitOrder` over the service
result (`none` is a successful submission of a new order). -/
def submitOrderStatus (e : Option Err) : Nat :=
  match e with
  | none => 202
  | some err =>
    if errorsIs err Err.invalidOrderNumber then 422
    else if errorsIs err Err.orderAlreadyUploaded then 200
    else if errorsIs err Err.orderOwnedByAnother then 409
    else 500

/-- Status mapping of `BalanceHandler.Withdraw` over the service
result. -/
def withdrawStatus (e : Option Err) : Nat :=
  match e with
  | none => 200
  | some err =>
    if errorsIs err Err.invalidWithdrawalNumber then 422
    else if errorsIs err Err.invalidWithdrawalSum then 422
    else if errorsIs err Err.insufficientBalance then 402
    else if errorsIs err Err.userNotFound then 401
    else if errorsIs err Err.withdrawalExists then 422
    else 500

/-- Status mapping shared by `OrderHandler.GetOrders` and
`BalanceHandler.GetWithdrawals`: 500 on a service error, 204 on an
empty list, 200 otherwise. -/
def listStatus (r : Except Err (List α)) : Nat :=
  match r with
  | .error _ => 500
  | .ok l => if l.length == 0 then 204 else 200

/-! ## Observation helpers and shared lemmas -/

/-- Business keys of all order rows. -/
def numbersOf (db : DB) : List String := db.orders.map (fun o => o.number)

/-- Status of the order row with the given number, when present. -/
def statusOf (db : DB) (n : String) : Option OrderStatus :=
  (findOrder db n).map (fun o => o.status)

/-- Accrual column of the order row with the given number. -/
def accrualOf (db : DB) (n : String) : Option (Option Rat) :=
  (findOrder db n).map (fun o => o.accrual)

/-- Balance of the user row with the given id. -/
def balanceOf (db : DB) (id : Nat) : Option Rat :=
  (findUser db id).map (fun u => u.balance)

theorem find?_map_pred {α : Type} (g : α → α) (p : α → Bool) (l : List α)
    (h : ∀ a, p (g a) = p a) : (l.map g).find? p = (l.find? p).map g := by
  induction l with
  | nil => rfl
  | cons a t ih =>
    simp only [List.map_cons, List.find?_cons, h a]
    cases hpa : p a <;> simp [hpa, ih]

theorem findOrder_setOrderStatus (db : DB) (n k : String) (st : OrderStatus) (acc : Option Rat) :
    findOrder (setOrderStatus db n st acc) k =
      (findOrder db k).map (fun o =>
        if o.number == n then { o with status := st, accrual := acc } else o) := by
  unfold findOrder setOrderStatus
  exact find?_map_pred _ _ _ (fun o => by by_cases h : o.number == n <;> simp [h])

theorem findOrder_creditUser (db : DB) (id : Nat) (amount : Rat) (k : String) :
    findOrder (creditUser db id amount) k = findOrder db k := rfl

theorem findUser_creditUser (db : DB) (id : Nat) (amount : Rat) (k : Nat) :
    findUser (creditUser db id amount) k =
      (findUser db k).map (fun u =>
        if u.id == id then { u with balance := u.balance + amount } else u) := by
  unfold findUser creditUser
  exact find?_map_pred _ _ _ (fun u => by by_cases h : u.id == id <;> simp [h])

theorem findUser_setOrderStatus (db : DB) (n : String) (st : OrderStatus) (acc : Option Rat) (k : Nat) :
    findUser (setOrderStatus db n st acc) k = findUser db k := rfl

/-! ## Claim C7: accrual response classification -/

/-- C7: for every order number, the accrual client classifies the HTTP
response as follows: 200 parses the JSON body into a reply and returns
it (a decode failure is its own error kind); 204 is the NotFound
sentinel; 429 is RateLimited with `retry_after` parsed from the
`Retry-After` header as integer seconds, or as an HTTP-date
(`time.Until` of the parsed instant), or 5 seconds when the header is
absent or unparseable; 500 is the transient server error; any other
status is UnexpectedStatus with the code; and the outcomes are
pairwise distinct error kinds. -/
theorem C7_accrual_response_classification (resp : HTTPResponse) (now : Int) :
    (resp.statusCode = 200 → ∀ p, resp.bodyDecode = Except.ok p →
      GetOrderAccrual resp now = Except.ok p) ∧
    (resp.statusCode = 200 → ∀ m, resp.bodyDecode = Except.error m →
      GetOrderAccrual resp now = Except.error (AccrualErr.decodeErr m)) ∧
    (resp.statusCode = 204 → GetOrderAccrual resp now = Except.error AccrualErr.notFound) ∧
    (resp.statusCode = 429 → GetOrderAccrual resp now =
      Except.error (AccrualErr.rateLimited (parseRetryAfter resp.retryAfter resp.retryAfterDate now))) ∧
    (resp.statusCode = 500 → GetOrderAccrual resp now = Except.error AccrualErr.serverError) ∧
    (resp.statusCode ≠ 200 → resp.statusCode ≠ 204 → resp.statusCode ≠ 429 → resp.statusCode ≠ 500 →
      GetOrderAccrual resp now = Except.error (AccrualErr.unexpectedStatus resp.statusCode)) ∧
    (∀ dp t, parseRetryAfter "" dp t = 5 * second) ∧
    (∀ v k dp t, goAtoi v = some k → parseRetryAfter v dp t = k * second) ∧
    (∀ v tm t, v ≠ "" → goAtoi v = none → parseRetryAfter v (some tm) t = tm - t) ∧
    (∀ v t, v ≠ "" → goAtoi v = none → parseRetryAfter v none t = 5 * second) ∧
    (∀ (d : Int) (m : String) (cd : Nat),
      AccrualErr.notFound ≠ AccrualErr.rateLimited d ∧
      AccrualErr.notFound ≠ AccrualErr.serverError ∧
      AccrualErr.notFound ≠ AccrualErr.unexpectedStatus cd ∧
      AccrualErr.notFound ≠ AccrualErr.decodeErr m ∧
      AccrualErr.rateLimited d ≠ AccrualErr.serverError ∧
      AccrualErr.rateLimited d ≠ AccrualErr.unexpectedStatus cd ∧
      AccrualErr.rateLimited d ≠ AccrualErr.decodeErr m ∧
      AccrualErr.serverError ≠ AccrualErr.unexpectedStatus cd ∧
      AccrualErr.serverError ≠ AccrualErr.decodeErr m ∧
      AccrualErr.unexpectedStatus cd ≠ AccrualErr.decodeErr m) := by
  refine ⟨?_, ?_, ?_, ?_, ?_, ?_, ?_, ?_, ?_, ?_, ?_⟩
  · intro h p hp
    simp [GetOrderAccrual, h, hp]
  · intro h m hm
    simp [GetOrderAccrual, h, hm]
  · intro h
    simp [GetOrderAccrual, h]
  · intro h
    simp [GetOrderAccrual, h]
  · intro h
    simp [GetOrderAccrual, h]
  · intro h1 h2 h3 h4
    simp [GetOrderAccrual, h1, h2, h3, h4]
  · intro dp t
    simp [parseRetryAfter]
  · intro v k dp t hk
    have hv : v ≠ "" := by
      intro h
      rw [h] at hk
      exact Option.noConfusion hk
    simp [parseRetryAfter, hv, hk]
  · intro v tm t hv hn
    simp [parseRetryAfter, hv, hn]
  · intro v t hv hn
    simp [parseRetryAfter, hv, hn]
  · intro d m cd
    refine ⟨?_, ?_, ?_, ?_, ?_, ?_, ?_, ?_, ?_, ?_⟩ <;> simp

/-- Witness for C7 at a concrete response: a 429 reply with
`Retry-After: 2` classifies as RateLimited with a 2-second pause. -/
theorem C7_witness :
    GetOrderAccrual
      { statusCode := 429, bodyDecode := Except.error "no body",
        retryAfter := "2", retryAfterDate := none } 0 =
      Except.error (AccrualErr.rateLimited (2 * second)) := by
  obtain ⟨-, -, -, h429, -, -, -, hsecs, -⟩ :=
    C7_accrual_response_classification
      { statusCode := 429, bodyDecode := Except.error "no body",
        retryAfter := "2", retryAfterDate := none } 0
  rw [h429 rfl, hsecs "2" 2 none 0 (by decide)]

/-! ## Claim C8: error to HTTP status mapping -/

/-- C8: the HTTP adapters map every core error to the specified status
code: the two invalid-number errors, the invalid-sum error and the
duplicate-withdrawal error give 422; a same-user duplicate submission
gives 200; another user's order gives 409; insufficient balance gives
402; an unknown user on the authenticated withdraw path gives 401; any
unrecognised error gives 500; a fresh successful submission gives 202;
an empty list on GET gives 204. -/
theorem C8_error_to_http_status :
    submitOrderStatus (some Err.invalidOrderNumber) = 422 ∧
    withdrawStatus (some Err.invalidWithdrawalNumber) = 422 ∧
    withdrawStatus (some Err.invalidWithdrawalSum) = 422 ∧
    withdrawStatus (some Err.withdrawalExists) = 422 ∧
    submitOrderStatus (some Err.orderAlreadyUploaded) = 200 ∧
    submitOrderStatus (some Err.orderOwnedByAnother) = 409 ∧
    withdrawStatus (some Err.insufficientBalance) = 402 ∧
    withdrawStatus (some Err.userNotFound) = 401 ∧
    submitOrderStatus none = 202 ∧
    listStatus (Except.ok ([] : List Order)) = 204 ∧
    listStatus (Except.ok ([] : List Withdrawal)) = 204 ∧
    (∀ e : Err, errorsIs e Err.invalidOrderNumber = false →
      errorsIs e Err.orderAlreadyUploaded = false →
      errorsIs e Err.orderOwnedByAnother = false →
      submitOrderStatus (some e) = 500) ∧
    (∀ e : Err, errorsIs e Err.invalidWithdrawalNumber = false →
      errorsIs e Err.invalidWithdrawalSum = false →
      errorsIs e Err.insufficientBalance = false →
      errorsIs e Err.userNotFound = false →
      errorsIs e Err.withdrawalExists = false →
      withdrawStatus (some e) = 500) := by
  refine ⟨by decide, by decide, by decide, by decide, by decide, by decide, by decide,
    by decide, by decide, by decide, by decide, ?_, ?_⟩
  · intro e h1 h2 h3
    simp [submitOrderStatus, h1, h2, h3]
  · intro e h1 h2 h3 h4 h5
    simp [withdrawStatus, h1, h2, h3, h4, h5]

/-- Witness for C8 at a concrete unrecognised error: a raw database
error maps to 500 on both adapters. -/
theorem C8_witness :
    submitOrderStatus (some (Err.msg "connection refused")) = 500 ∧
    withdrawStatus (some (Err.msg "connection refused")) = 500 := by
  obtain ⟨-, -, -, -, -, -, -, -, -, -, -, hsub, hwd⟩ := C8_error_to_http_status
  exact ⟨hsub _ (by decide) (by decide) (by decide),
    hwd _ (by decide) (by decide) (by decide) (by decide) (by decide)⟩

/-! ## Claim C10: lost race with failing re-fetch -/

/-- C10: when `Create` reports AlreadyExists during submission but the
re-fetch fails or returns no order, the service returns the
AlreadyExists error wrapped as "create order: ...", which the HTTP
adapter maps to 500 instead of one of the per-owner outcomes. -/
theorem C10_race_refetch_failure (u : Nat) (raw : String) (g : Option Order × Option Err)
    (hn : trimSpace raw ≠ "") (hl : ValidateLuhn (trimSpace raw) = true)
    (hg : g.1 = none ∨ g.2 ≠ none) :
    submitOrderWith u raw
      { get1 := (none, some Err.orderNotFound),
        createErr := some Err.orderAlreadyExists,
        get2 := g } =
      some (Err.wrap "create order" Err.orderAlreadyExists) ∧
    submitOrderStatus (some (Err.wrap "create order" Err.orderAlreadyExists)) = 500 := by
  constructor
  · simp only [submitOrderWith, hl]
    rw [if_neg (by simpa using hn)]
    obtain ⟨o1, e1⟩ := g
    rcases hg with hg | hg
    · simp only at hg
      subst hg
      cases e1 <;> simp [errorsIs]
    · simp only at hg
      cases e1 with
      | none => exact absurd rfl hg
      | some e => cases o1 <;> simp [errorsIs]
  · decide

/-- Witness for C10: a concrete lost race where the re-fetch reports
NotFound ends in the wrapped creation error and a 500. -/
theorem C10_witness :
    submitOrderWith 7 "79927398713"
      { get1 := (none, some Err.orderNotFound),
        createErr := some Err.orderAlreadyExists,
        get2 := (none, some Err.orderNotFound) } =
      some (Err.wrap "create order" Err.orderAlreadyExists) ∧
    submitOrderStatus (some (Err.wrap "create order" Err.orderAlreadyExists)) = 500 :=
  C10_race_refetch_failure 7 "79927398713" (none, some Err.orderNotFound)
    (by decide) (by decide) (Or.inl rfl)

/-! ## Claim C1: the withdrawal transaction -/

/-- C1 (amended): `Withdraw` first validates that the trimmed order
number is non-empty and passes Luhn (returning InvalidWithdrawalNumber
otherwise) and requires a strictly positive sum (returning
InvalidWithdrawalSum otherwise); then, in a single transaction, it
debits the balance and inserts the withdrawal record; the debit
returns InsufficientBalance exactly when the user's balance is below
the sum and otherwise subtracts the sum from the balance and adds it
to the withdrawn total; on any error inside the transaction the
transaction is rolled back, so neither the user row nor the
withdrawals table changes, and the error is propagated unchanged. -/
theorem C1_withdraw_transactional (db : DB) (uid : Nat) (n : String) (s : Rat) (now : Nat) :
    (trimSpace n = "" ∨ ValidateLuhn (trimSpace n) = false →
      Withdraw db uid n s now = Except.error Err.invalidWithdrawalNumber) ∧
    (trimSpace n ≠ "" → ValidateLuhn (trimSpace n) = true → s ≤ 0 →
      Withdraw db uid n s now = Except.error Err.invalidWithdrawalSum) ∧
    (trimSpace n ≠ "" → ValidateLuhn (trimSpace n) = true → 0 < s →
      (findUser db uid = none → Withdraw db uid n s now = Except.error Err.userNotFound) ∧
      ∀ u, findUser db uid = some u →
        (u.balance < s → Withdraw db uid n s now = Except.error Err.insufficientBalance) ∧
        (s ≤ u.balance → (∃ w ∈ db.withdrawals, w.orderNumber = trimSpace n) →
          Withdraw db uid n s now = Except.error Err.withdrawalExists) ∧
        (s ≤ u.balance → (∀ w ∈ db.withdrawals, w.orderNumber ≠ trimSpace n) →
          Withdraw db uid n s now = Except.ok
            { users := db.users.map (fun v => if v.id == uid then
                { v with balance := v.balance - s, withdrawn := v.withdrawn + s } else v),
              orders := db.orders,
              withdrawals := db.withdrawals ++
                [{ userID := uid, orderNumber := trimSpace n, sum := s, processedAt := now }] })) ∧
    (∀ e, (withdrawRun db uid n s now).2 = some e → (withdrawRun db uid n s now).1 = db) := by
  refine ⟨?_, ?_, ?_, ?_⟩
  · intro hv
    rcases hv with hv | hv <;> simp [Withdraw, hv]
  · intro hn hl hs
    simp [Withdraw, hn, hl, hs]
  · intro hn hl hs
    have hcond : (trimSpace n == "" || !ValidateLuhn (trimSpace n)) = false := by
      simp [hn, hl]
    constructor
    · intro hfind
      simp [Withdraw, hcond, not_le.mpr hs, WithdrawTx, hfind]
    · intro u hfind
      refine ⟨?_, ?_, ?_⟩
      · intro hbal
        simp [Withdraw, hcond, not_le.mpr hs, WithdrawTx, hfind, hbal]
      · intro hbal hex
        have hany : (db.withdrawals.any (fun v => v.orderNumber == trimSpace n)) = true := by
          rcases hex with ⟨w, hw, hwn⟩
          exact List.any_eq_true.mpr ⟨w, hw, by simp [hwn]⟩
        simp [Withdraw, hcond, not_le.mpr hs, WithdrawTx, hfind, not_lt.mpr hbal,
          CreateWithTx, hany]
      · intro hbal hnone
        have hany : (db.withdrawals.any (fun v => v.orderNumber == trimSpace n)) = false := by
          rw [Bool.eq_false_iff]
          intro hc
          obtain ⟨w, hw, hwn⟩ := List.any_eq_true.mp hc
          exact hnone w hw (by simpa using hwn)
        simp [Withdraw, hcond, not_le.mpr hs, WithdrawTx, hfind, not_lt.mpr hbal,
          CreateWithTx, hany]
  · intro e
    unfold withdrawRun
    cases h : Withdraw db uid n s now <;> simp

/-- Witness for C1 at a concrete state: a user with balance 100
withdraws 40 against a valid order number (surrounded by white space);
the balance becomes 60, the withdrawn total 40, and the withdrawal row
is recorded. -/
theorem C1_witness :
    Withdraw ⟨[⟨1, 100, 0⟩], [], []⟩ 1 " 2377225624 " 40 5 =
      Except.ok ⟨[⟨1, 60, 40⟩], [], [⟨1, "2377225624", 40, 5⟩]⟩ := by
  obtain ⟨-, -, h3, -⟩ :=
    C1_withdraw_transactional ⟨[⟨1, 100, 0⟩], [], []⟩ 1 " 2377225624 " 40 5
  obtain ⟨-, h4⟩ := h3 (by decide) (by decide) (by norm_num)
  have hw := (h4 ⟨1, 100, 0⟩ rfl).2.2 (by norm_num) (by simp)
  rw [hw]
  have ht : trimSpace " 2377225624 " = "2377225624" := by decide
  rw [ht]
  norm_num

/-- Counterexample to C1 as stated: for the empty (whitespace-only)
order number the trimmed value passes `ValidateLuhn`, yet `Withdraw`
returns InvalidWithdrawalNumber instead of proceeding to the sum check
and the debit, because the service rejects the empty string before the
Luhn check. -/
theorem C1_counterexample :
    ValidateLuhn (trimSpace "") = true ∧
    Withdraw ⟨[⟨1, 100, 0⟩], [], []⟩ 1 "" 40 0 =
      Except.error Err.invalidWithdrawalNumber := by
  exact ⟨by decide, rfl⟩

/-! ## Claim C9: missing accrual field decodes to zero -/

/-- C9: a 200 reply whose JSON body omits the `accrual` field decodes
to an AccrualReply with accrual 0 (the field is a non-nullable decimal
whose zero value survives decoding); when such a reply says PROCESSED
the worker marks the order PROCESSED with accrual 0 and credits 0 to
the owner's balance — leaving every balance unchanged — rather than
treating the missing value as absent. -/
theorem C9_missing_accrual_defaults_to_zero (j : AccrualJSON) (hacc : j.accrual = none) :
    (decodeAccrualBody j).accrual = 0 ∧
    (j.status = some "PROCESSED" →
      ∀ (c : Bool) (db : DB) (o : Order),
        processOrder c db o (FetchResult.reply (decodeAccrualBody j)) =
          (applyProcessed db o.userID o.number 0,
            [WEvent.credited o.number o.userID 0], none) ∧
        (applyProcessed db o.userID o.number 0).users = db.users ∧
        (applyProcessed db o.userID o.number 0).orders = db.orders.map (fun q =>
          if q.number == o.number then
            { q with status := OrderStatus.processed, accrual := some 0 } else q)) := by
  constructor
  · simp [decodeAccrualBody, hacc]
  · intro hst c db o
    have hrs : (decodeAccrualBody j).status = "PROCESSED" := by
      simp [decodeAccrualBody, hst]
    have hra : (decodeAccrualBody j).accrual = 0 := by
      simp [decodeAccrualBody, hacc]
    refine ⟨?_, ?_, ?_⟩
    · simp only [processOrder, hrs, hra]
    · have hfn : (fun u : User =>
          if u.id == o.userID then { u with balance := u.balance + 0 } else u) = id := by
        funext u
        by_cases h : u.id == o.userID <;> simp [h]
      simp [applyProcessed, creditUser, setOrderStatus, hfn]
    · rfl

/-- Witness for C9 at a concrete reply and database. -/
theorem C9_witness :
    (decodeAccrualBody { order := some "42", status := some "PROCESSED", accrual := none }).accrual = 0 ∧
    processOrder false ⟨[⟨3, 10, 0⟩], [⟨3, "42", OrderStatus.processing, none, 0⟩], []⟩
        ⟨3, "42", OrderStatus.processing, none, 0⟩
        (FetchResult.reply (decodeAccrualBody
          { order := some "42", status := some "PROCESSED", accrual := none })) =
      (applyProcessed ⟨[⟨3, 10, 0⟩], [⟨3, "42", OrderStatus.processing, none, 0⟩], []⟩ 3 "42" 0,
        [WEvent.credited "42" 3 0], none) := by
  obtain ⟨h1, h2⟩ := C9_missing_accrual_defaults_to_zero
    { order := some "42", status := some "PROCESSED", accrual := none } rfl
  exact ⟨h1, (h2 rfl false _ _).1⟩

/-! ## Claim C3: reply-to-state dispatch -/

/-- C3: for every pending order, a successful accrual reply maps onto
the order's state as follows: REGISTERED or PROCESSING run
UpdateStatus(number, PROCESSING, nil); INVALID runs
UpdateStatus(number, INVALID, nil); PROCESSED runs one transaction
that both sets the order to PROCESSED with the reply's accrual and
adds that accrual to the owner's balance; any unknown status leaves
the order unchanged. -/
theorem C3_reply_dispatch (c : Bool) (db : DB) (o : Order) (r : AccrualResponse) (q : Order)
    (hq : findOrder db o.number = some q) :
    ((r.status = "REGISTERED" ∨ r.status = "PROCESSING") →
      processOrder c db o (FetchResult.reply r) =
        (setOrderStatus db o.number OrderStatus.processing none, [], none) ∧
      UpdateStatus db o.number OrderStatus.processing none =
        Except.ok (setOrderStatus db o.number OrderStatus.processing none) ∧
      statusOf (setOrderStatus db o.number OrderStatus.processing none) o.number =
        some OrderStatus.processing ∧
      accrualOf (setOrderStatus db o.number OrderStatus.processing none) o.number = some none) ∧
    (r.status = "INVALID" →
      processOrder c db o (FetchResult.reply r) =
        (setOrderStatus db o.number OrderStatus.invalid none, [], none) ∧
      statusOf (setOrderStatus db o.number OrderStatus.invalid none) o.number =
        some OrderStatus.invalid) ∧
    (r.status = "PROCESSED" →
      processOrder c db o (FetchResult.reply r) =
        (applyProcessed db o.userID o.number r.accrual,
          [WEvent.credited o.number o.userID r.accrual], none) ∧
      statusOf (applyProcessed db o.userID o.number r.accrual) o.number =
        some OrderStatus.processed ∧
      accrualOf (applyProcessed db o.userID o.number r.accrual) o.number = some (some r.accrual) ∧
      (∀ u, findUser db o.userID = some u →
        balanceOf (applyProcessed db o.userID o.number r.accrual) o.userID =
          some (u.balance + r.accrual))) ∧
    (r.status ≠ "REGISTERED" → r.status ≠ "PROCESSING" → r.status ≠ "INVALID" →
      r.status ≠ "PROCESSED" →
      processOrder c db o (FetchResult.reply r) = (db, [], none)) := by
  have hq' : db.orders.find? (fun p => p.number == o.number) = some q := hq
  have hqn : (q.number == o.number) = true :=
    @List.find?_some Order (fun p => p.number == o.number) q db.orders hq'
  have hqe : q.number = o.number := by simpa using hqn
  have hany : (db.orders.any (fun p => p.number == o.number)) = true :=
    List.any_eq_true.mpr ⟨q, List.mem_of_find?_eq_some hq', hqn⟩
  have hupd : UpdateStatus db o.number OrderStatus.processing none =
      Except.ok (setOrderStatus db o.number OrderStatus.processing none) := by
    simp [UpdateStatus, hany]
  have hupd2 : UpdateStatus db o.number OrderStatus.invalid none =
      Except.ok (setOrderStatus db o.number OrderStatus.invalid none) := by
    simp [UpdateStatus, hany]
  refine ⟨?_, ?_, ?_, ?_⟩
  · intro hs
    have hst : statusOf (setOrderStatus db o.number OrderStatus.processing none) o.number =
        some OrderStatus.processing := by
      simp [statusOf, findOrder_setOrderStatus, hq, hqn, hqe]
    have hac : accrualOf (setOrderStatus db o.number OrderStatus.processing none) o.number =
        some none := by
      simp [accrualOf, findOrder_setOrderStatus, hq, hqn, hqe]
    rcases hs with hs | hs <;> exact ⟨by simp [processOrder, hs, hupd], hupd, hst, hac⟩
  · intro hs
    refine ⟨by simp [processOrder, hs, hupd2], ?_⟩
    simp [statusOf, findOrder_setOrderStatus, hq, hqn, hqe]
  · intro hs
    refine ⟨by simp [processOrder, hs], ?_, ?_, ?_⟩
    · simp [statusOf, applyProcessed, findOrder_creditUser, findOrder_setOrderStatus, hq, hqn, hqe]
    · simp [accrualOf, applyProcessed, findOrder_creditUser, findOrder_setOrderStatus, hq, hqn, hqe]
    · intro u hu
      have hu' : db.users.find? (fun v => v.id == o.userID) = some u := hu
      have hun : (u.id == o.userID) = true :=
        @List.find?_some User (fun v => v.id == o.userID) u db.users hu'
      have hue : u.id = o.userID := by simpa using hun
      simp [balanceOf, applyProcessed, findUser_creditUser, findUser_setOrderStatus, hu, hun, hue]
  · intro h1 h2 h3 h4
    simp [processOrder, h1, h2, h3, h4]

/-- Witness for C3 at a concrete order and PROCESSED reply: the order
becomes PROCESSED with accrual 50 and the owner's balance grows by
50. -/
theorem C3_witness :
    processOrder false ⟨[⟨3, 10, 0⟩], [⟨3, "42", OrderStatus.processing, none, 0⟩], []⟩
        ⟨3, "42", OrderStatus.processing, none, 0⟩
        (FetchResult.reply ⟨"42", "PROCESSED", 50⟩) =
      (applyProcessed ⟨[⟨3, 10, 0⟩], [⟨3, "42", OrderStatus.processing, none, 0⟩], []⟩ 3 "42" 50,
        [WEvent.credited "42" 3 50], none) ∧
    balanceOf (applyProcessed ⟨[⟨3, 10, 0⟩], [⟨3, "42", OrderStatus.processing, none, 0⟩], []⟩
        3 "42" 50) 3 = some (10 + 50) := by
  obtain ⟨-, -, h3, -⟩ := C3_reply_dispatch false
    ⟨[⟨3, 10, 0⟩], [⟨3, "42", OrderStatus.processing, none, 0⟩], []⟩
    ⟨3, "42", OrderStatus.processing, none, 0⟩ ⟨"42", "PROCESSED", 50⟩
    ⟨3, "42", OrderStatus.processing, none, 0⟩ rfl
  obtain ⟨ha, -, -, hb⟩ := h3 rfl
  exact ⟨ha, hb ⟨3, 10, 0⟩ rfl⟩

/-! ## Claim C4: batch error independence -/

/-- C4 (amended): a failure on one order never aborts the batch — on
NotFound the order is left unchanged; on RateLimited the worker sleeps
the full pause unconditionally (the plain `time.Sleep` in the source
does not observe cancellation) and continues with the next order,
leaving the rate-limited order unchanged; on any other transport error
it reports the error for logging and continues; and processing a batch
`os1 ++ os2` always processes all of `os2` after `os1`, whatever the
outcomes in `os1`. -/
theorem C4_batch_error_independence (c : Bool) (db : DB) (o : Order) (d : Int) (m : String)
    (f : String → FetchResult) (os1 os2 : List Order) :
    processOrder c db o FetchResult.notFound = (db, [], none) ∧
    processOrder c db o (FetchResult.rateLimited d) = (db, [WEvent.slept d], none) ∧
    processOrder c db o (FetchResult.fetchErr m) = (db, [], some (Err.msg m)) ∧
    processBatchList c db (os1 ++ os2) f =
      ((processBatchList c (processBatchList c db os1 f).1 os2 f).1,
        (processBatchList c db os1 f).2 ++
          (processBatchList c (processBatchList c db os1 f).1 os2 f).2) := by
  refine ⟨rfl, rfl, rfl, ?_⟩
  induction os1 generalizing db with
  | nil => simp [processBatchList]
  | cons a t ih => simp [processBatchList, ih, List.append_assoc]

/-- Counterexample to C4 as stated: the context is already cancelled,
yet on a rate-limited first order the worker still sleeps the full
7-second pause (the source calls the plain `time.Sleep`, which cannot
observe cancellation) and then still processes the second order of the
batch. -/
theorem C4_counterexample :
    (processBatchList true
        ⟨[⟨2, 0, 0⟩], [⟨1, "18", OrderStatus.new, none, 0⟩,
          ⟨2, "42", OrderStatus.new, none, 1⟩], []⟩
        [⟨1, "18", OrderStatus.new, none, 0⟩, ⟨2, "42", OrderStatus.new, none, 1⟩]
        (fun n => if n == "18" then FetchResult.rateLimited 7000000000
          else FetchResult.reply ⟨"42", "PROCESSED", 50⟩)).2 =
      [WEvent.slept 7000000000, WEvent.credited "42" 2 50] := by
  decide

/-! ## Claim C5: order submission -/

/-- C5: `Submit` trims the raw number and returns InvalidNumber for
empty or non-Luhn input; otherwise it returns AlreadyUploadedBySameUser
when an order with that number exists and is owned by the caller,
OwnedByAnotherUser when it is owned by someone else, and creates the
order in status NEW when no such order exists; when `Create` fails
with AlreadyExists (a lost race) the re-fetch is mapped to the same
per-owner outcomes; and a second identical Submit returns
AlreadyUploadedBySameUser, producing no new database state. -/
theorem C5_submit_order (db : DB) (u : Nat) (raw : String) (now : Nat) :
    (trimSpace raw = "" ∨ ValidateLuhn (trimSpace raw) = false →
      SubmitOrder db u raw now = Except.error Err.invalidOrderNumber) ∧
    (trimSpace raw ≠ "" → ValidateLuhn (trimSpace raw) = true →
      (∀ o, findOrder db (trimSpace raw) = some o →
        (o.userID = u → SubmitOrder db u raw now = Except.error Err.orderAlreadyUploaded) ∧
        (o.userID ≠ u → SubmitOrder db u raw now = Except.error Err.orderOwnedByAnother)) ∧
      (findOrder db (trimSpace raw) = none →
        SubmitOrder db u raw now = Except.ok { db with orders := db.orders ++
          [{ userID := u, number := trimSpace raw, status := OrderStatus.new,
             accrual := none, uploadedAt := now }] }) ∧
      (∀ (ex : Order) (ce : Err), errorsIs ce Err.orderAlreadyExists = true →
        (ex.userID = u → submitOrderWith u raw
            { get1 := (none, some Err.orderNotFound), createErr := some ce,
              get2 := (some ex, none) } = some Err.orderAlreadyUploaded) ∧
        (ex.userID ≠ u → submitOrderWith u raw
            { get1 := (none, some Err.orderNotFound), createErr := some ce,
              get2 := (some ex, none) } = some Err.orderOwnedByAnother))) ∧
    (∀ db2, SubmitOrder db u raw now = Except.ok db2 →
      ∀ now2, SubmitOrder db2 u raw now2 = Except.error Err.orderAlreadyUploaded) := by
  refine ⟨?_, ?_, ?_⟩
  · intro hv
    rcases hv with hv | hv <;> simp [SubmitOrder, submitOrderWith, hv]
  · intro hn hl
    refine ⟨?_, ?_, ?_⟩
    · intro o hf
      constructor <;> intro ho <;>
        simp [SubmitOrder, submitOrderWith, getByNumberReply, hn, hl, hf, ho]
    · intro hf
      have hany : (db.orders.any (fun o => o.number == trimSpace raw)) = false := by
        rw [Bool.eq_false_iff]
        intro hc
        obtain ⟨x, hx, hxn⟩ := List.any_eq_true.mp hc
        have hfn : db.orders.find? (fun o => o.number == trimSpace raw) = none := hf
        rw [List.find?_eq_none] at hfn
        exact hfn x hx hxn
      simp [SubmitOrder, submitOrderWith, getByNumberReply, hn, hl, hf, hany, errorsIs]
    · intro ex ce hce
      constructor <;> intro ho <;>
        simp [submitOrderWith, hn, hl, hce, ho, errorsIs]
  · intro db2 h now2
    by_cases hn : trimSpace raw = ""
    · simp [SubmitOrder, submitOrderWith, hn] at h
    · by_cases hl : ValidateLuhn (trimSpace raw) = true
      · cases hf : findOrder db (trimSpace raw) with
        | some o =>
          by_cases ho : o.userID = u <;>
            simp [SubmitOrder, submitOrderWith, getByNumberReply, hn, hl, hf, ho] at h
        | none =>
          have hany : (db.orders.any (fun o => o.number == trimSpace raw)) = false := by
            rw [Bool.eq_false_iff]
            intro hc
            obtain ⟨x, hx, hxn⟩ := List.any_eq_true.mp hc
            have hfn : db.orders.find? (fun o => o.number == trimSpace raw) = none := hf
            rw [List.find?_eq_none] at hfn
            exact hfn x hx hxn
          have hok : SubmitOrder db u raw now = Except.ok { db with orders := db.orders ++
              [{ userID := u, number := trimSpace raw, status := OrderStatus.new,
                 accrual := none, uploadedAt := now }] } := by
            simp [SubmitOrder, submitOrderWith, getByNumberReply, hn, hl, hf, hany, errorsIs]
          rw [hok] at h
          have hdb2 : db2 =
              { db with orders :=
                  db.orders ++ [⟨u, trimSpace raw, OrderStatus.new, none, now⟩] } := by
            cases h
            rfl
          subst hdb2
          have hf2 : findOrder
              { db with orders :=
                  db.orders ++ [⟨u, trimSpace raw, OrderStatus.new, none, now⟩] }
              (trimSpace raw) =
              some ⟨u, trimSpace raw, OrderStatus.new, none, now⟩ := by
            unfold findOrder
            have hfn : db.orders.find? (fun o => o.number == trimSpace raw) = none := hf
            simp [List.find?_append, hfn]
          simp [SubmitOrder, submitOrderWith, getByNumberReply, hn, hl, hf2]
      · have hl2 : ValidateLuhn (trimSpace raw) = false := by simpa using hl
        simp [SubmitOrder, submitOrderWith, hn, hl2] at h

/-- Witness for C5 at a concrete run: submitting a fresh valid number
creates the NEW order; resубmitting it returns the same-user
duplicate error. -/
theorem C5_witness :
    SubmitOrder ⟨[], [], []⟩ 1 "79927398713" 0 =
      Except.ok ⟨[], [⟨1, "79927398713", OrderStatus.new, none, 0⟩], []⟩ ∧
    SubmitOrder ⟨[], [⟨1, "79927398713", OrderStatus.new, none, 0⟩], []⟩ 1 "79927398713" 9 =
      Except.error Err.orderAlreadyUploaded := by
  obtain ⟨-, hmain, hidem⟩ := C5_submit_order ⟨[], [], []⟩ 1 "79927398713" 0
  obtain ⟨-, hcreate, -⟩ := hmain (by decide) (by decide)
  have h1 := hcreate rfl
  exact ⟨h1, hidem _ h1 9⟩

/-! ## Claim C6: the Luhn validator -/

/-- Weighted checksum computed by the loop of `ValidateLuhn`, peeling
the characters from the left with running index `i`. -/
def luhnWSum (p : Nat) : Nat → List Char → Nat
  | _, [] => 0
  | i, c :: rest =>
    (if i % 2 == p then luhnDouble (digitVal c) else digitVal c) + luhnWSum p (i + 1) rest

/-- The spec checksum re-indexed by distance from the RIGHT end while
still peeling from the left: the head of `d :: rest` sits at distance
`j + rest.length` from the right. -/
def specSumRL (j : Nat) : List Nat → Nat
  | [] => 0
  | d :: rest => (if (j + rest.length) % 2 == 1 then luhnDouble d else d) + specSumRL j rest

theorem luhnLoop_none_of_nonDigit (p : Nat) (l : List Char) :
    (∃ c ∈ l, isGoDigit c = false) → ∀ i s, luhnLoop p i s l = none := by
  induction l with
  | nil =>
    rintro ⟨c, hc, -⟩
    exact absurd hc (List.not_mem_nil c)
  | cons a t ih =>
    rintro ⟨c, hc, hcd⟩ i s
    rcases List.mem_cons.mp hc with rfl | hct
    · have hnd : (c.toNat < 48 || 57 < c.toNat) = true := by
        unfold isGoDigit at hcd
        cases hb : (c.toNat < 48 || 57 < c.toNat)
        · rw [hb] at hcd
          exact absurd hcd (by decide)
        · rfl
      simp [luhnLoop, hnd]
    · by_cases ha : (a.toNat < 48 || 57 < a.toNat) = true
      · simp [luhnLoop, ha]
      · rw [Bool.not_eq_true] at ha
        simp [luhnLoop, ha, ih ⟨c, hct, hcd⟩]

theorem luhnLoop_digits (p : Nat) (l : List Char) (hd : ∀ c ∈ l, isGoDigit c = true) :
    ∀ i s, luhnLoop p i s l = some (s + luhnWSum p i l) := by
  induction l with
  | nil => intro i s; simp [luhnLoop, luhnWSum]
  | cons a t ih =>
    intro i s
    have ha : (a.toNat < 48 || 57 < a.toNat) = false := by
      have := hd a (List.mem_cons_self a t)
      simpa [isGoDigit] using this
    have iht := ih (fun c hc => hd c (List.mem_cons_of_mem a hc))
    simp only [luhnLoop, ha, Bool.false_eq_true, if_false, luhnWSum, luhnDouble, digitVal,
      iht (i + 1) _]
    by_cases hp : (i % 2 == p) = true <;> simp [hp, Nat.add_assoc]

theorem luhnSpecSum_append (ys : List Nat) : ∀ (xs : List Nat) (j : Nat),
    luhnSpecSum j (xs ++ ys) = luhnSpecSum j xs + luhnSpecSum (j + xs.length) ys := by
  intro xs
  induction xs with
  | nil => intro j; simp [luhnSpecSum]
  | cons d t ih =>
    intro j
    have h1 : luhnSpecSum j (d :: (t ++ ys)) =
        (if j % 2 == 1 then luhnDouble d else d) + luhnSpecSum (j + 1) (t ++ ys) := rfl
    have h2 : luhnSpecSum j (d :: t) =
        (if j % 2 == 1 then luhnDouble d else d) + luhnSpecSum (j + 1) t := rfl
    have hidx : j + 1 + t.length = j + (t.length + 1) := by omega
    rw [List.cons_append, h1, h2, ih (j + 1), hidx, List.length_cons]
    omega

theorem luhnSpecSum_reverse (j : Nat) : ∀ ds : List Nat,
    luhnSpecSum j ds.reverse = specSumRL j ds := by
  intro ds
  induction ds with
  | nil => rfl
  | cons d t ih =>
    rw [List.reverse_cons, luhnSpecSum_append, ih]
    simp only [specSumRL, luhnSpecSum, List.length_reverse, Nat.add_zero]
    omega

theorem luhnWSum_eq_specSumRL (p : Nat) (hp : p < 2) : ∀ (l : List Char) (i j : Nat),
    (i + j + l.length + p) % 2 = 0 →
    luhnWSum p i l = specSumRL j (l.map digitVal) := by
  intro l
  induction l with
  | nil => intro i j _; rfl
  | cons a t ih =>
    intro i j h
    rw [List.length_cons] at h
    have hrec := ih (i + 1) j (by omega)
    simp only [luhnWSum, List.map_cons, specSumRL, List.length_map, hrec]
    congr 1
    by_cases h1 : i % 2 = p
    · have h2 : (j + t.length) % 2 = 1 := by omega
      simp [h1, h2]
    · have h2 : (j + t.length) % 2 ≠ 1 := by omega
      simp [h1, h2]

theorem luhnSpecSum_zeros : ∀ (ds : List Nat) (j : Nat),
    (∀ d ∈ ds, d = 0) → luhnSpecSum j ds = 0 := by
  intro ds
  induction ds with
  | nil => intro j _; rfl
  | cons d t ih =>
    intro j hz
    have hd0 : d = 0 := hz d (List.mem_cons_self d t)
    have ht := ih (j + 1) (fun x hx => hz x (List.mem_cons_of_mem d hx))
    simp [luhnSpecSum, hd0, ht, luhnDouble]

/-- C6 (amended): `ValidateLuhn` returns TRUE for the empty string (the
checksum of no digits is 0; the callers reject empty input before the
Luhn check); it returns false for any string containing a non-digit
character; for non-empty all-digit strings it returns true iff the sum
of the digits, doubling every second digit from the right and
subtracting 9 when the product exceeds 9, is divisible by 10; and an
all-zero string is accepted. -/
theorem C6_luhn_validator (s : String) :
    (s = "" → ValidateLuhn s = true) ∧
    ((∃ c ∈ s.toList, isGoDigit c = false) → ValidateLuhn s = false) ∧
    (s ≠ "" → (∀ c ∈ s.toList, isGoDigit c = true) →
      (ValidateLuhn s = true ↔ luhnSpecSum 0 ((s.toList.map digitVal).reverse) % 10 = 0)) ∧
    ((∀ c ∈ s.toList, c = '0') → ValidateLuhn s = true) := by
  have hiff : (∀ c ∈ s.toList, isGoDigit c = true) →
      (ValidateLuhn s = true ↔ luhnSpecSum 0 ((s.toList.map digitVal).reverse) % 10 = 0) := by
    intro hd
    have hloop := luhnLoop_digits (s.toList.length % 2) s.toList hd 0 0
    have hpar : (0 + 0 + s.toList.length + s.toList.length % 2) % 2 = 0 := by omega
    have hw := luhnWSum_eq_specSumRL (s.toList.length % 2) (by omega) s.toList 0 0 hpar
    have hrev := luhnSpecSum_reverse 0 (s.toList.map digitVal)
    rw [ValidateLuhn, hloop, hw, hrev]
    simp
  refine ⟨?_, ?_, fun _ => hiff, ?_⟩
  · intro h
    rw [h]
    decide
  · intro hx
    rw [ValidateLuhn, luhnLoop_none_of_nonDigit (s.toList.length % 2) s.toList hx 0 0]
  · intro hz
    have hd : ∀ c ∈ s.toList, isGoDigit c = true := by
      intro c hc
      rw [hz c hc]
      decide
    rw [(hiff hd)]
    have hzero : luhnSpecSum 0 ((s.toList.map digitVal).reverse) = 0 := by
      apply luhnSpecSum_zeros
      intro d hd2
      rw [List.mem_reverse] at hd2
      obtain ⟨c, hc, rfl⟩ := List.mem_map.mp hd2
      rw [hz c hc]
      decide
    rw [hzero]

/-- Counterexample to C6 as stated: `ValidateLuhn` returns true on the
empty string (the loop never runs and the zero checksum is divisible
by 10); the repository's own unit test asserts this behaviour. -/
theorem C6_counterexample : ValidateLuhn "" = true := by decide

/-- Witness for C6 at concrete strings: a string with a letter is
rejected, the standard valid number satisfies the right-to-left
checksum characterisation, and the all-zero string is accepted. -/
theorem C6_witness :
    ValidateLuhn "12a45" = false ∧
    (ValidateLuhn "79927398713" = true ↔
      luhnSpecSum 0 (("79927398713".toList.map digitVal).reverse) % 10 = 0) ∧
    ValidateLuhn "0000" = true := by
  obtain ⟨-, hnd, -, -⟩ := C6_luhn_validator "12a45"
  obtain ⟨-, -, hiff, -⟩ := C6_luhn_validator "79927398713"
  obtain ⟨-, -, -, hz⟩ := C6_luhn_validator "0000"
  exact ⟨hnd ⟨'a', by decide, by decide⟩, hiff (by decide) (by decide), hz (by decide)⟩

/-! ## Claim C2: support lemmas for the at-most-once credit argument -/

theorem creditsFor_append (n : String) (a b : List WEvent) :
    creditsFor n (a ++ b) = creditsFor n a + creditsFor n b :=
  List.countP_append _ _ _

theorem UpdateStatus_ok_inv {db db1 : DB} {k : String} {st : OrderStatus} {acc : Option Rat}
    (h : UpdateStatus db k st acc = Except.ok db1) : db1 = setOrderStatus db k st acc := by
  unfold UpdateStatus at h
  split at h
  · cases h
    rfl
  · cases h

theorem numbersOf_setOrderStatus (db : DB) (k : String) (st : OrderStatus) (acc : Option Rat) :
    numbersOf (setOrderStatus db k st acc) = numbersOf db := by
  unfold numbersOf setOrderStatus
  simp only [List.map_map]
  apply List.map_congr_left
  intro o _
  simp only [Function.comp_apply]
  split <;> rfl

theorem numbersOf_applyProcessed (db : DB) (uid : Nat) (k : String) (a : Rat) :
    numbersOf (applyProcessed db uid k a) = numbersOf db :=
  numbersOf_setOrderStatus db k OrderStatus.processed (some a)

theorem processOrder_numbersOf (c : Bool) (db : DB) (o : Order) (fr : FetchResult) :
    numbersOf (processOrder c db o fr).1 = numbersOf db := by
  cases fr with
  | rateLimited d => rfl
  | notFound => rfl
  | fetchErr m => rfl
  | reply r =>
    simp only [processOrder]
    split
    · split
      · rename_i db1 heq
        simpa [UpdateStatus_ok_inv heq] using numbersOf_setOrderStatus db o.number _ _
      · rfl
    · split
      · rename_i db1 heq
        simpa [UpdateStatus_ok_inv heq] using numbersOf_setOrderStatus db o.number _ _
      · rfl
    · split
      · rename_i db1 heq
        simpa [UpdateStatus_ok_inv heq] using numbersOf_setOrderStatus db o.number _ _
      · rfl
    · exact numbersOf_applyProcessed db o.userID o.number r.accrual
    · rfl

theorem statusOf_setOrderStatus_other {k n : String} (h : k ≠ n) (db : DB)
    (st : OrderStatus) (acc : Option Rat) :
    statusOf (setOrderStatus db k st acc) n = statusOf db n := by
  unfold statusOf
  rw [findOrder_setOrderStatus]
  cases hf : findOrder db n with
  | none => rfl
  | some q =>
    have hq' : db.orders.find? (fun p => p.number == n) = some q := hf
    have hqe : q.number = n := by
      simpa using @List.find?_some Order (fun p => p.number == n) q db.orders hq'
    have hne : ¬(q.number = k) := by
      rw [hqe]
      exact Ne.symm h
    simp [hne]

theorem statusOf_setOrderStatus_self {db : DB} {n : String} {q : Order}
    (hq : findOrder db n = some q) (st : OrderStatus) (acc : Option Rat) :
    statusOf (setOrderStatus db n st acc) n = some st := by
  unfold statusOf
  rw [findOrder_setOrderStatus, hq]
  have hq' : db.orders.find? (fun p => p.number == n) = some q := hq
  have hqe : q.number = n := by
    simpa using @List.find?_some Order (fun p => p.number == n) q db.orders hq'
  simp [hqe]

theorem statusOf_creditUser (db : DB) (uid : Nat) (a : Rat) (n : String) :
    statusOf (creditUser db uid a) n = statusOf db n := rfl

theorem statusOf_processOrder_other (c : Bool) (db : DB) (o : Order) (fr : FetchResult)
    (n : String) (h : o.number ≠ n) :
    statusOf (processOrder c db o fr).1 n = statusOf db n := by
  cases fr with
  | rateLimited d => rfl
  | notFound => rfl
  | fetchErr m => rfl
  | reply r =>
    simp only [processOrder]
    split
    · split
      · rename_i db1 heq
        rw [UpdateStatus_ok_inv heq]
        exact statusOf_setOrderStatus_other h db _ _
      · rfl
    · split
      · rename_i db1 heq
        rw [UpdateStatus_ok_inv heq]
        exact statusOf_setOrderStatus_other h db _ _
      · rfl
    · split
      · rename_i db1 heq
        rw [UpdateStatus_ok_inv heq]
        exact statusOf_setOrderStatus_other h db _ _
      · rfl
    · show statusOf (applyProcessed db o.userID o.number r.accrual) n = statusOf db n
      unfold applyProcessed
      rw [statusOf_creditUser]
      exact statusOf_setOrderStatus_other h db _ _
    · rfl

theorem creditsFor_processOrder_other (c : Bool) (db : DB) (o : Order) (fr : FetchResult)
    (n : String) (h : o.number ≠ n) :
    creditsFor n (processOrder c db o fr).2.1 = 0 := by
  cases fr with
  | rateLimited d => rfl
  | notFound => rfl
  | fetchErr m => rfl
  | reply r =>
    simp only [processOrder]
    split
    · split <;> rfl
    · split <;> rfl
    · split <;> rfl
    · simp [creditsFor, h]
    · rfl

theorem creditsFor_processOrder_le_one (c : Bool) (db : DB) (o : Order) (fr : FetchResult)
    (n : String) : creditsFor n (processOrder c db o fr).2.1 ≤ 1 := by
  cases fr with
  | rateLimited d => exact Nat.zero_le 1
  | notFound => exact Nat.zero_le 1
  | fetchErr m => exact Nat.zero_le 1
  | reply r =>
    simp only [processOrder]
    split
    · split <;> simp [creditsFor]
    · split <;> simp [creditsFor]
    · split <;> simp [creditsFor]
    · simp only [creditsFor, List.countP_cons, List.countP_nil]
      split <;> simp
    · simp [creditsFor]

theorem processOrder_credit_processed (c : Bool) (db : DB) (o : Order) (fr : FetchResult)
    (n : String) (h : creditsFor n (processOrder c db o fr).2.1 = 1) :
    o.number = n ∧ (∀ q, findOrder db n = some q →
      statusOf (processOrder c db o fr).1 n = some OrderStatus.processed) := by
  cases fr with
  | rateLimited d => exact absurd h (by simp [processOrder, creditsFor])
  | notFound => exact absurd h (by simp [processOrder, creditsFor])
  | fetchErr m => exact absurd h (by simp [processOrder, creditsFor])
  | reply r =>
    simp only [processOrder] at h ⊢
    revert h
    split
    · split <;> intro h <;> exact absurd h (by simp [creditsFor])
    · split <;> intro h <;> exact absurd h (by simp [creditsFor])
    · split <;> intro h <;> exact absurd h (by simp [creditsFor])
    · intro h
      have hon : o.number = n := by
        by_cases hc : (o.number == n) = true
        · simpa using hc
        · rw [Bool.not_eq_true] at hc
          simp [creditsFor, hc] at h
      refine ⟨hon, ?_⟩
      intro q hq
      show statusOf (applyProcessed db o.userID o.number r.accrual) n = some OrderStatus.processed
      unfold applyProcessed
      rw [statusOf_creditUser, hon]
      exact statusOf_setOrderStatus_self hq _ _
    · intro h
      exact absurd h (by simp [creditsFor])

theorem processBatchList_nil (c : Bool) (db : DB) (f : String → FetchResult) :
    processBatchList c db [] f = (db, []) := rfl

theorem processBatchList_cons (c : Bool) (db : DB) (o : Order) (rest : List Order)
    (f : String → FetchResult) :
    processBatchList c db (o :: rest) f =
      ((processBatchList c (processOrder c db o (f o.number)).1 rest f).1,
        (processOrder c db o (f o.number)).2.1 ++
          (processBatchList c (processOrder c db o (f o.number)).1 rest f).2) := rfl

theorem processBatchList_numbersOf (c : Bool) (f : String → FetchResult) :
    ∀ (os : List Order) (db : DB),
      numbersOf (processBatchList c db os f).1 = numbersOf db := by
  intro os
  induction os with
  | nil => intro db; rfl
  | cons o rest ih =>
    intro db
    rw [processBatchList_cons]
    exact (ih _).trans (processOrder_numbersOf c db o (f o.number))

theorem processBatchList_no_credit (c : Bool) (f : String → FetchResult) (n : String) :
    ∀ (os : List Order) (db : DB), (∀ o ∈ os, o.number ≠ n) →
      creditsFor n (processBatchList c db os f).2 = 0 ∧
      statusOf (processBatchList c db os f).1 n = statusOf db n := by
  intro os
  induction os with
  | nil => intro db _; exact ⟨rfl, rfl⟩
  | cons o rest ih =>
    intro db hne
    rw [processBatchList_cons]
    obtain ⟨ih0, ih1⟩ := ih (processOrder c db o (f o.number)).1
      (fun x hx => hne x (List.mem_cons_of_mem o hx))
    have hhead : o.number ≠ n := hne o (List.mem_cons_self o rest)
    constructor
    · simp only [creditsFor_append, ih0, creditsFor_processOrder_other c db o _ n hhead]
    · exact ih1.trans (statusOf_processOrder_other c db o _ n hhead)

theorem findOrder_isSome_iff (db : DB) (n : String) :
    (findOrder db n).isSome = true ↔ n ∈ numbersOf db := by
  unfold findOrder numbersOf
  rw [List.find?_isSome]
  constructor
  · rintro ⟨o, ho, hon⟩
    exact List.mem_map.mpr ⟨o, ho, by simpa using hon⟩
  · intro hm
    obtain ⟨o, ho, rfl⟩ := List.mem_map.mp hm
    exact ⟨o, ho, by simp⟩

theorem processBatchList_bound (c : Bool) (f : String → FetchResult) (n : String) :
    ∀ (os : List Order) (db : DB),
      List.countP (fun o => o.number == n) os ≤ 1 →
      ((∃ o ∈ os, o.number = n) → (findOrder db n).isSome = true) →
      creditsFor n (processBatchList c db os f).2 ≤ 1 ∧
      (creditsFor n (processBatchList c db os f).2 = 1 →
        statusOf (processBatchList c db os f).1 n = some OrderStatus.processed) := by
  intro os
  induction os with
  | nil =>
    intro db _ _
    exact ⟨Nat.zero_le 1, fun h => absurd h (by simp [processBatchList_nil, creditsFor])⟩
  | cons o rest ih =>
    intro db hcount hpres
    rw [processBatchList_cons, creditsFor_append]
    by_cases hon : o.number = n
    · have hcrest : List.countP (fun o => o.number == n) rest = 0 := by
        rw [List.countP_cons] at hcount
        simp only [hon, beq_self_eq_true, if_true] at hcount
        omega
      have hrestne : ∀ x ∈ rest, x.number ≠ n := by
        intro x hx hxn
        have := List.countP_eq_zero.mp hcrest x hx
        simp [hxn] at this
      obtain ⟨hr0, hr1⟩ := processBatchList_no_credit c f n rest
        (processOrder c db o (f o.number)).1 hrestne
      rw [hr0, Nat.add_zero]
      refine ⟨creditsFor_processOrder_le_one c db o _ n, ?_⟩
      intro h1
      obtain ⟨-, hst⟩ := processOrder_credit_processed c db o (f o.number) n h1
      have hq : (findOrder db n).isSome = true :=
        hpres ⟨o, List.mem_cons_self o rest, hon⟩
      obtain ⟨q, hq⟩ := Option.isSome_iff_exists.mp hq
      rw [hr1]
      exact hst q hq
    · have h0 : creditsFor n (processOrder c db o (f o.number)).2.1 = 0 :=
        creditsFor_processOrder_other c db o _ n hon
      rw [h0, Nat.zero_add]
      have hcrest : List.countP (fun o => o.number == n) rest ≤ 1 := by
        rw [List.countP_cons] at hcount
        omega
      have hpres2 : (∃ x ∈ rest, x.number = n) →
          (findOrder (processOrder c db o (f o.number)).1 n).isSome = true := by
        rintro ⟨x, hx, hxn⟩
        rw [findOrder_isSome_iff, processOrder_numbersOf]
        rw [← findOrder_isSome_iff]
        exact hpres ⟨x, List.mem_cons_of_mem o hx, hxn⟩
      exact ih (processOrder c db o (f o.number)).1 hcrest hpres2

theorem pending_mem_orders {db : DB} {o : Order} (h : o ∈ GetPendingOrders db) :
    o ∈ db.orders ∧ isPending o = true := by
  have hperm := List.perm_insertionSort uploadedLE (db.orders.filter isPending)
  exact List.mem_filter.mp (hperm.mem_iff.mp h)

theorem pending_countP (db : DB) (n : String) (hnd : (numbersOf db).Nodup) :
    List.countP (fun o => o.number == n) (GetPendingOrders db) ≤ 1 := by
  have hperm := List.perm_insertionSort uploadedLE (db.orders.filter isPending)
  unfold GetPendingOrders
  rw [List.Perm.countP_eq _ hperm]
  have h1 : List.countP (fun o => o.number == n) (db.orders.filter isPending) ≤
      List.countP (fun o => o.number == n) db.orders :=
    (List.filter_sublist _).countP_le _
  have h2 : List.countP (fun o : Order => o.number == n) db.orders ≤ 1 := by
    have hc : List.countP (fun o : Order => o.number == n) db.orders =
        List.count n (numbersOf db) := by
      unfold numbersOf
      rw [List.count_eq_countP, List.countP_map]
      rfl
    rw [hc]
    exact List.nodup_iff_count_le_one.mp hnd n
  omega

theorem processed_not_pending {db : DB} {n : String} (hnd : (numbersOf db).Nodup)
    (hst : statusOf db n = some OrderStatus.processed) :
    ∀ o ∈ GetPendingOrders db, o.number ≠ n := by
  intro o ho hon
  obtain ⟨hmem, hpend⟩ := pending_mem_orders ho
  unfold statusOf at hst
  cases hf : findOrder db n with
  | none => rw [hf] at hst; cases hst
  | some q =>
    rw [hf] at hst
    have hqs : q.status = OrderStatus.processed := by simpa using hst
    have hq' : db.orders.find? (fun p => p.number == n) = some q := hf
    have hqmem : q ∈ db.orders := List.mem_of_find?_eq_some hq'
    have hqn : q.number = n := by
      simpa using @List.find?_some Order (fun p => p.number == n) q db.orders hq'
    have hoq : o = q := List.inj_on_of_nodup_map hnd hmem hqmem (by rw [hon, hqn])
    rw [hoq] at hpend
    simp [isPending, hqs] at hpend

theorem processBatch_processed (c : Bool) (f : String → FetchResult) (n : String) (db : DB)
    (hnd : (numbersOf db).Nodup) (hst : statusOf db n = some OrderStatus.processed) :
    creditsFor n (processBatch c db f).2 = 0 ∧
    statusOf (processBatch c db f).1 n = some OrderStatus.processed := by
  obtain ⟨h0, h1⟩ := processBatchList_no_credit c f n (GetPendingOrders db) db
    (processed_not_pending hnd hst)
  exact ⟨h0, h1.trans hst⟩

theorem processBatch_numbersOf (c : Bool) (f : String → FetchResult) (db : DB) :
    numbersOf (processBatch c db f).1 = numbersOf db :=
  processBatchList_numbersOf c f (GetPendingOrders db) db

theorem runTicks_nil (c : Bool) (db : DB) : runTicks c db [] = (db, []) := rfl

theorem runTicks_cons (c : Bool) (db : DB) (f : String → FetchResult)
    (fs : List (String → FetchResult)) :
    runTicks c db (f :: fs) =
      ((runTicks c (processBatch c db f).1 fs).1,
        (processBatch c db f).2 ++ (runTicks c (processBatch c db f).1 fs).2) := rfl

theorem runTicks_processed (c : Bool) (n : String) :
    ∀ (fs : List (String → FetchResult)) (db : DB), (numbersOf db).Nodup →
      statusOf db n = some OrderStatus.processed →
      creditsFor n (runTicks c db fs).2 = 0 := by
  intro fs
  induction fs with
  | nil => intro db _ _; rfl
  | cons f fs ih =>
    intro db hnd hst
    rw [runTicks_cons, creditsFor_append]
    obtain ⟨h0, h1⟩ := processBatch_processed c f n db hnd hst
    have hnd1 : (numbersOf (processBatch c db f).1).Nodup := by
      rw [processBatch_numbersOf]
      exact hnd
    rw [h0, ih (processBatch c db f).1 hnd1 h1]

theorem runTicks_credits_le_one (c : Bool) (n : String) :
    ∀ (fs : List (String → FetchResult)) (db : DB), (numbersOf db).Nodup →
      creditsFor n (runTicks c db fs).2 ≤ 1 := by
  intro fs
  induction fs with
  | nil => intro db _; exact Nat.zero_le 1
  | cons f fs ih =>
    intro db hnd
    rw [runTicks_cons, creditsFor_append]
    have hpres : (∃ o ∈ GetPendingOrders db, o.number = n) →
        (findOrder db n).isSome = true := by
      rintro ⟨o, ho, hon⟩
      rw [findOrder_isSome_iff]
      exact List.mem_map.mpr ⟨o, (pending_mem_orders ho).1, hon⟩
    obtain ⟨hle, himp⟩ := processBatchList_bound c f n (GetPendingOrders db) db
      (pending_countP db n hnd) hpres
    have hnd1 : (numbersOf (processBatch c db f).1).Nodup := by
      rw [processBatch_numbersOf]
      exact hnd
    cases hb : creditsFor n (processBatch c db f).2 with
    | zero => simpa using ih (processBatch c db f).1 hnd1
    | succ k =>
      have hk : k = 0 := by
        have := hb ▸ hle
        omega
      subst hk
      have hproc : statusOf (processBatch c db f).1 n = some OrderStatus.processed :=
        himp hb
      rw [runTicks_processed c n fs (processBatch c db f).1 hnd1 hproc]

/-! ## Claim C2: the pending set and at-most-once credit -/

/-- C2: `GetPendingOrders` returns exactly the orders whose status is
NEW or PROCESSING, sorted by `uploaded_at` ascending; consequently an
order that has reached the terminal PROCESSED state never appears in a
later batch, so for every sequence of worker ticks — provided order
numbers are unique, which the store's uniqueness constraint
guarantees — duplicate PROCESSED replies from the accrual service for
the same order credit the user's balance at most once. -/
theorem C2_pending_set_and_at_most_once_credit (db : DB) (n : String) (c : Bool) :
    List.Perm (GetPendingOrders db) (db.orders.filter isPending) ∧
    List.Sorted uploadedLE (GetPendingOrders db) ∧
    (∀ o : Order, o ∈ GetPendingOrders db ↔ o ∈ db.orders ∧
      (o.status = OrderStatus.new ∨ o.status = OrderStatus.processing)) ∧
    (∀ o : Order, o ∈ db.orders → o.status = OrderStatus.processed →
      o ∉ GetPendingOrders db) ∧
    ((numbersOf db).Nodup →
      ∀ fs : List (String → FetchResult), creditsFor n (runTicks c db fs).2 ≤ 1) := by
  have hperm := List.perm_insertionSort uploadedLE (db.orders.filter isPending)
  have hmem : ∀ o : Order, o ∈ GetPendingOrders db ↔ o ∈ db.orders ∧
      (o.status = OrderStatus.new ∨ o.status = OrderStatus.processing) := by
    intro o
    unfold GetPendingOrders
    rw [hperm.mem_iff, List.mem_filter]
    constructor
    · rintro ⟨h1, h2⟩
      refine ⟨h1, ?_⟩
      rcases Bool.or_eq_true_iff.mp h2 with h | h
      · exact Or.inl (by simpa using h)
      · exact Or.inr (by simpa using h)
    · rintro ⟨h1, h2⟩
      refine ⟨h1, ?_⟩
      rcases h2 with h | h <;> simp [isPending, h]
  refine ⟨hperm, List.sorted_insertionSort uploadedLE _, hmem, ?_, ?_⟩
  · intro o hmo hst hin
    rcases (hmem o).mp hin with ⟨-, h | h⟩ <;> rw [hst] at h <;> cases h
  · intro hnd fs
    exact runTicks_credits_le_one c n fs db hnd

/-- Witness for C2: a database with one NEW order, two consecutive
ticks both answering PROCESSED for it; the worker credits the balance
at most once. -/
theorem C2_witness :
    creditsFor "79927398713" (runTicks false
      ⟨[⟨1, 0, 0⟩], [⟨1, "79927398713", OrderStatus.new, none, 0⟩], []⟩
      [fun _ => FetchResult.reply ⟨"79927398713", "PROCESSED", 100⟩,
       fun _ => FetchResult.reply ⟨"79927398713", "PROCESSED", 100⟩]).2 ≤ 1 := by
  obtain ⟨-, -, -, -, h⟩ := C2_pending_set_and_at_most_once_credit
    ⟨[⟨1, 0, 0⟩], [⟨1, "79927398713", OrderStatus.new, none, 0⟩], []⟩ "79927398713" false
  exact h (by decide) _

end Gofermart
